import Mathlib

/-!
Verification of the virtual-time asynchronous task scheduler described by the
repository's design document (spec.md), together with the application-level
test model from async-testing-app/src/app/app.component.spec.ts.

The repository ships only the blog walkthrough and the Angular test suite; the
scheduler itself (Angular's fakeAsync zone) is an external collaborator, so the
scheduler components below are modelled from the spec: Clock, MicrotaskQueue,
MacrotaskQueue, Scheduler (tick / flush / flushMicrotasks), InterceptionScope
and StabilityWaiter, as laid out in spec.md sections 2-5.
-/

namespace FakeAsync

/-- Modelled from the spec: a task callback ("zero-argument action") of the
scheduler, missing from src/.  A callback may do nothing, record an observable
effect, enqueue an immediate continuation into the MicrotaskQueue, schedule a
delayed callback into the MacrotaskQueue, or sequence two of these. -/
inductive Prog where
  | nop : Prog
  | emit : Nat → Prog
  | micro : Prog → Prog
  | timer : Nat → Prog → Prog
  | seq : Prog → Prog → Prog
deriving DecidableEq, Repr

/-- Modelled from the spec: PendingTask of spec.md section 3, missing from
src/ - id, dueTime, callback and cancelled flag. -/
structure PendingTask where
  id : Nat
  dueTime : Nat
  cancelled : Bool
  prog : Prog
deriving DecidableEq, Repr

/-- Modelled from the spec: the Scheduler state, missing from src/ - Clock
(now), the insertion-sequence counter, MacrotaskQueue (insertion order),
MicrotaskQueue (FIFO), plus instrumentation: `log` records emitted effects in
execution order, `execLog` records (id, dueTime) of each executed macrotask,
and `microSnap` records the MicrotaskQueue length observed at the moment each
macrotask begins executing. -/
structure SchedState where
  now : Nat
  nextId : Nat
  macroQ : List PendingTask
  microQ : List Prog
  log : List Nat
  execLog : List (Nat × Nat)
  microSnap : List Nat
deriving DecidableEq, Repr

/-- Structural size of a callback; bounds the total work it can cause. -/
def progSize : Prog → Nat
  | Prog.nop => 1
  | Prog.emit _ => 1
  | Prog.micro p => progSize p + 1
  | Prog.timer _ p => progSize p + 1
  | Prog.seq p q => progSize p + progSize q + 1

/-- Total callback size of a list of microtasks. -/
def progSizes (l : List Prog) : Nat := (l.map progSize).sum

/-- Total callback size of a list of macrotasks. -/
def taskSizes (l : List PendingTask) : Nat := (l.map (fun t => progSize t.prog)).sum

/-- Outstanding work in both queues; the drain loops strictly decrease it. -/
def totalPending (s : SchedState) : Nat := taskSizes s.macroQ + progSizes s.microQ

/-- Modelled from the spec: executing one callback (spec.md section 3
lifecycle), missing from src/.  `micro` appends to the MicrotaskQueue, `timer`
adds a PendingTask with dueTime = now + delay, `emit` records its tag. -/
def runProg : Prog → SchedState → SchedState
  | Prog.nop, s => s
  | Prog.emit t, s => { s with log := s.log ++ [t] }
  | Prog.micro p, s => { s with microQ := s.microQ ++ [p] }
  | Prog.timer d p, s =>
      { s with macroQ := s.macroQ ++ [⟨s.nextId, s.now + d, false, p⟩],
               nextId := s.nextId + 1 }
  | Prog.seq p q, s => runProg q (runProg p s)

/-- Fuelled fixed-point drain of the MicrotaskQueue: pop and execute until
empty (or out of fuel; the wrapper supplies provably sufficient fuel). -/
def drainMicroF : Nat → SchedState → SchedState
  | 0, s => s
  | fuel + 1, s =>
      match s.microQ with
      | [] => s
      | p :: rest => drainMicroF fuel (runProg p { s with microQ := rest })

/-- Modelled from the spec: `flushMicrotasks()` of spec.md section 4.2,
missing from src/ - pops and executes until empty; a fixed-point drain, not a
single pass. -/
def drainMicro (s : SchedState) : SchedState := drainMicroF (progSizes s.microQ) s

/-- Whether a macrotask is eligible for the current drain: never cancelled,
and either due (`restrict = none`, used by tick) or part of the pass snapshot
(`restrict = some j`: inserted before sequence number j, used by flush). -/
def taskLive (restrict : Option Nat) (now : Nat) (t : PendingTask) : Bool :=
  !t.cancelled &&
    (match restrict with
     | some j => decide (t.id < j)
     | none => decide (t.dueTime ≤ now))

/-- First-wins minimum by dueTime: ties are broken by insertion order. -/
def pickFrom : PendingTask → List PendingTask → PendingTask
  | best, [] => best
  | best, u :: us => pickFrom (if u.dueTime < best.dueTime then u else best) us

/-- Modelled from the spec: pop selection of the MacrotaskQueue (spec.md
section 3: ordered by (dueTime, insertion sequence), stable FIFO at equal
time), missing from src/. -/
def pickTask (restrict : Option Nat) (s : SchedState) : Option PendingTask :=
  match s.macroQ.filter (taskLive restrict s.now) with
  | [] => none
  | t :: ts => some (pickFrom t ts)

/-- Remove an executed task from the MacrotaskQueue (destroyed on execution). -/
def removeTask (i : Nat) (l : List PendingTask) : List PendingTask :=
  l.filter (fun t => t.id != i)

/-- Modelled from the spec: the shared drain loop of tick and of one flush
pass (spec.md sections 4.1 and 4.3), missing from src/.  Each round first
fully drains the MicrotaskQueue, then pops the earliest eligible macrotask
(recording its id/dueTime and the microtask count observed as it starts),
advances the Clock to its dueTime when `advance` is set (flush), and executes
its callback. -/
def execLoopF (restrict : Option Nat) (advance : Bool) : Nat → SchedState → SchedState
  | 0, s => s
  | fuel + 1, s =>
      let s1 := drainMicro s
      match pickTask restrict s1 with
      | none => s1
      | some t =>
          let s2 := { s1 with
                      macroQ := removeTask t.id s1.macroQ,
                      now := if advance then max s1.now t.dueTime else s1.now,
                      execLog := s1.execLog ++ [(t.id, t.dueTime)],
                      microSnap := s1.microSnap ++ [s1.microQ.length] }
          execLoopF restrict advance fuel (runProg t.prog s2)

/-- The drain loop with provably sufficient fuel. -/
def execLoop (restrict : Option Nat) (advance : Bool) (s : SchedState) : SchedState :=
  execLoopF restrict advance (totalPending s) s

/-- Modelled from the spec: `tick(amount)` of spec.md section 4.1, missing
from src/ - advances now by amount, then repeatedly pops the earliest
non-cancelled task with dueTime ≤ now (ties by insertion order), draining the
MicrotaskQueue around each execution. -/
def tick (amount : Nat) (s : SchedState) : SchedState :=
  execLoop none false { s with now := s.now + amount }

/-- Modelled from the spec: `schedule(delay, cb)` of spec.md section 4.1,
missing from src/ - adds a PendingTask with dueTime = now + delay. -/
def schedule (delay : Nat) (p : Prog) (s : SchedState) : SchedState :=
  { s with macroQ := s.macroQ ++ [⟨s.nextId, s.now + delay, false, p⟩],
           nextId := s.nextId + 1 }

/-- Modelled from the spec: `cancel(taskId)` of spec.md section 4.1, missing
from src/ - marks the task cancelled; it is skipped at execution time. -/
def cancel (i : Nat) (s : SchedState) : SchedState :=
  { s with macroQ := s.macroQ.map (fun t => if t.id = i then { t with cancelled := true } else t) }

/-- Modelled from the spec: `scheduleImmediate(cb)` of spec.md section 6,
missing from src/ - enqueues an immediate continuation. -/
def scheduleImmediate (p : Prog) (s : SchedState) : SchedState :=
  { s with microQ := s.microQ ++ [p] }

/-- Modelled from the spec: `flushMicrotasks()` of spec.md sections 4.2/6,
missing from src/. -/
def flushMicrotasks (s : SchedState) : SchedState := drainMicro s

/-- The non-cancelled tasks still queued. -/
def livePending (s : SchedState) : List PendingTask :=
  s.macroQ.filter (fun t => !t.cancelled)

/-- Result of a flush: completion, or the designed DrainLimitExceeded failure
when the pass budget is exhausted while tasks remain (spec.md section 7). -/
inductive FlushOutcome where
  | ok : SchedState → FlushOutcome
  | drainLimitExceeded : SchedState → FlushOutcome
deriving DecidableEq, Repr

/-- The scheduler state carried by either flush outcome. -/
def outState : FlushOutcome → SchedState
  | FlushOutcome.ok s => s
  | FlushOutcome.drainLimitExceeded s => s

/-- Modelled from the spec: the flush pass loop of spec.md section 4.3,
missing from src/.  Each pass drains microtasks and executes the macrotask set
available at the start of the pass (ids below the pass-start insertion
counter), advancing the Clock to each task's own dueTime; if tasks remain, a
new pass begins, bounded by the remaining pass budget. -/
def flushLoop : Nat → SchedState → FlushOutcome
  | 0, s =>
      let s1 := execLoop (some s.nextId) true s
      if (livePending s1).isEmpty then FlushOutcome.ok s1
      else FlushOutcome.drainLimitExceeded s1
  | rem + 1, s =>
      let s1 := execLoop (some s.nextId) true s
      if (livePending s1).isEmpty then FlushOutcome.ok s1
      else flushLoop rem s1

/-- Modelled from the spec: `flush(maxPasses)` of spec.md section 4.3,
missing from src/. -/
def flush (maxPasses : Nat) (s : SchedState) : FlushOutcome := flushLoop maxPasses s

/-- Modelled from the spec: `flush()` with its default pass budget of 20
(spec.md sections 3 and 4.3), missing from src/. -/
def flushDefault (s : SchedState) : FlushOutcome := flush 20 s

/-- A fresh scheduler at a given virtual time: both queues empty. -/
def initState (now0 : Nat) : SchedState := ⟨now0, 0, [], [], [], [], []⟩

/-! ### Size bookkeeping -/

theorem progSize_pos (p : Prog) : 1 ≤ progSize p := by
  cases p <;> simp [progSize]

theorem progSizes_nil : progSizes [] = 0 := rfl

theorem progSizes_cons (p : Prog) (l : List Prog) :
    progSizes (p :: l) = progSize p + progSizes l := by
  simp [progSizes]

theorem progSizes_append (l1 l2 : List Prog) :
    progSizes (l1 ++ l2) = progSizes l1 + progSizes l2 := by
  simp [progSizes]

theorem taskSizes_nil : taskSizes [] = 0 := rfl

theorem taskSizes_cons (t : PendingTask) (l : List PendingTask) :
    taskSizes (t :: l) = progSize t.prog + taskSizes l := by
  simp [taskSizes]

theorem taskSizes_append (l1 l2 : List PendingTask) :
    taskSizes (l1 ++ l2) = taskSizes l1 + taskSizes l2 := by
  simp [taskSizes]

/-- Executing one callback adds strictly less queued work than its own size. -/
theorem runProg_microSizes (p : Prog) (s : SchedState) :
    progSizes (runProg p s).microQ + 1 ≤ progSizes s.microQ + progSize p := by
  induction p generalizing s with
  | nop => simp [runProg, progSize]
  | emit t => simp [runProg, progSize]
  | micro q =>
      simp [runProg, progSize, progSizes_append, progSizes_cons, progSizes_nil]
      omega
  | timer d q => simp [runProg, progSize]
  | seq p q ihp ihq =>
      have h1 := ihp s
      have h2 := ihq (runProg p s)
      simp only [runProg, progSize]
      omega

/-- Executing one callback adds strictly less total pending work than its own
size (the key measure fact behind every drain loop's termination). -/
theorem runProg_totalPending (p : Prog) (s : SchedState) :
    totalPending (runProg p s) + 1 ≤ totalPending s + progSize p := by
  induction p generalizing s with
  | nop => simp [runProg, progSize]
  | emit t => simp [runProg, progSize, totalPending]
  | micro q =>
      simp [runProg, progSize, totalPending, progSizes_append, progSizes_cons, progSizes_nil]
      omega
  | timer d q =>
      simp [runProg, progSize, totalPending, taskSizes_append, taskSizes_cons, taskSizes_nil]
      omega
  | seq p q ihp ihq =>
      have h1 := ihp s
      have h2 := ihq (runProg p s)
      simp only [runProg, progSize]
      omega

/-! ### Field preservation by callback execution and microtask draining -/

theorem runProg_now (p : Prog) (s : SchedState) : (runProg p s).now = s.now := by
  induction p generalizing s with
  | nop => rfl
  | emit t => rfl
  | micro q => rfl
  | timer d q => rfl
  | seq p q ihp ihq => simp [runProg, ihp, ihq]

theorem runProg_execLog (p : Prog) (s : SchedState) : (runProg p s).execLog = s.execLog := by
  induction p generalizing s with
  | nop => rfl
  | emit t => rfl
  | micro q => rfl
  | timer d q => rfl
  | seq p q ihp ihq => simp [runProg, ihp, ihq]

theorem runProg_microSnap (p : Prog) (s : SchedState) : (runProg p s).microSnap = s.microSnap := by
  induction p generalizing s with
  | nop => rfl
  | emit t => rfl
  | micro q => rfl
  | timer d q => rfl
  | seq p q ihp ihq => simp [runProg, ihp, ihq]

theorem drainMicroF_now (fuel : Nat) (s : SchedState) :
    (drainMicroF fuel s).now = s.now := by
  induction fuel generalizing s with
  | zero => rfl
  | succ fuel ih =>
      rw [drainMicroF]
      cases h : s.microQ with
      | nil => rfl
      | cons p rest => rw [ih, runProg_now]

theorem drainMicroF_execLog (fuel : Nat) (s : SchedState) :
    (drainMicroF fuel s).execLog = s.execLog := by
  induction fuel generalizing s with
  | zero => rfl
  | succ fuel ih =>
      rw [drainMicroF]
      cases h : s.microQ with
      | nil => rfl
      | cons p rest => rw [ih, runProg_execLog]

theorem drainMicroF_microSnap (fuel : Nat) (s : SchedState) :
    (drainMicroF fuel s).microSnap = s.microSnap := by
  induction fuel generalizing s with
  | zero => rfl
  | succ fuel ih =>
      rw [drainMicroF]
      cases h : s.microQ with
      | nil => rfl
      | cons p rest => rw [ih, runProg_microSnap]

theorem drainMicro_now (s : SchedState) : (drainMicro s).now = s.now :=
  drainMicroF_now _ s

theorem drainMicro_execLog (s : SchedState) : (drainMicro s).execLog = s.execLog :=
  drainMicroF_execLog _ s

theorem drainMicro_microSnap (s : SchedState) : (drainMicro s).microSnap = s.microSnap :=
  drainMicroF_microSnap _ s

/-- With fuel at least the queued microtask size, the drain reaches the empty
fixed point. -/
theorem drainMicroF_microQ (fuel : Nat) (s : SchedState)
    (h : progSizes s.microQ ≤ fuel) : (drainMicroF fuel s).microQ = [] := by
  induction fuel generalizing s with
  | zero =>
      cases hq : s.microQ with
      | nil => exact hq
      | cons p rest =>
          exfalso
          rw [hq, progSizes_cons] at h
          have := progSize_pos p
          omega
  | succ fuel ih =>
      rw [drainMicroF]
      cases hq : s.microQ with
      | nil => exact hq
      | cons p rest =>
          apply ih
          have hrun := runProg_microSizes p { s with microQ := rest }
          rw [hq, progSizes_cons] at h
          simp only at hrun
          omega

/-- `flushMicrotasks` / `drainMicro` always reaches the empty queue: every
microtask enqueued during the drain, however deeply, is itself executed. -/
theorem drainMicro_microQ (s : SchedState) : (drainMicro s).microQ = [] :=
  drainMicroF_microQ _ s (Nat.le_refl _)

/-- Draining an empty MicrotaskQueue is a no-op. -/
theorem drainMicro_nil (s : SchedState) (h : s.microQ = []) : drainMicro s = s := by
  unfold drainMicro
  rw [h]
  rfl

/-- Draining never increases the outstanding-work measure. -/
theorem drainMicroF_totalPending (fuel : Nat) (s : SchedState) :
    totalPending (drainMicroF fuel s) ≤ totalPending s := by
  induction fuel generalizing s with
  | zero => exact Nat.le_refl _
  | succ fuel ih =>
      rw [drainMicroF]
      cases hq : s.microQ with
      | nil => exact Nat.le_refl _
      | cons p rest =>
          refine Nat.le_trans (ih _) ?_
          have hrun := runProg_totalPending p { s with microQ := rest }
          have hs : totalPending s = totalPending { s with microQ := rest } + progSize p := by
            simp [totalPending, hq, progSizes_cons]
            omega
          omega

theorem drainMicro_totalPending (s : SchedState) :
    totalPending (drainMicro s) ≤ totalPending s :=
  drainMicroF_totalPending _ s

/-! ### Properties of the pop selection -/

theorem pickFrom_mem (l : List PendingTask) (b : PendingTask) :
    pickFrom b l ∈ b :: l := by
  induction l generalizing b with
  | nil => simp [pickFrom]
  | cons u us ih =>
      rw [pickFrom]
      rcases List.mem_cons.mp (ih (if u.dueTime < b.dueTime then u else b)) with h | h
      · rw [h]
        by_cases hlt : u.dueTime < b.dueTime <;> simp [hlt]
      · simp [h]

/-- A popped task is a live member of the MacrotaskQueue. -/
theorem pickTask_mem (restrict : Option Nat) (s : SchedState) (t : PendingTask)
    (h : pickTask restrict s = some t) :
    t ∈ s.macroQ ∧ taskLive restrict s.now t = true := by
  unfold pickTask at h
  cases hc : s.macroQ.filter (taskLive restrict s.now) with
  | nil => rw [hc] at h; exact absurd h (by simp)
  | cons c cs =>
      rw [hc] at h
      have ht : pickFrom c cs = t := by simpa using h
      have hmem : t ∈ c :: cs := ht ▸ pickFrom_mem cs c
      rw [← hc] at hmem
      exact ⟨(List.mem_filter.mp hmem).1, (List.mem_filter.mp hmem).2⟩

/-- A task popped by tick's due-task selection is due. -/
theorem pickTask_due (s : SchedState) (t : PendingTask)
    (h : pickTask none s = some t) : t.dueTime ≤ s.now := by
  have hlive := (pickTask_mem none s t h).2
  simp [taskLive] at hlive
  exact hlive.2

/-- Dropping the tasks that share an id never grows the queued-work measure. -/
theorem filter_ne_sizes (i : Nat) (l : List PendingTask) :
    taskSizes (l.filter (fun v => v.id != i)) ≤ taskSizes l := by
  induction l with
  | nil => exact Nat.le_refl _
  | cons w ws ihw =>
      rw [List.filter_cons]
      by_cases hw : (w.id != i) = true
      · rw [if_pos hw, taskSizes_cons, taskSizes_cons]
        omega
      · rw [if_neg hw, taskSizes_cons]
        have := progSize_pos w.prog
        omega

/-- Removing a member strictly shrinks the queued-work measure. -/
theorem removeTask_sizes (l : List PendingTask) (t : PendingTask) (h : t ∈ l) :
    taskSizes (removeTask t.id l) + progSize t.prog ≤ taskSizes l := by
  induction l with
  | nil => cases h
  | cons u us ih =>
      rw [removeTask, List.filter_cons]
      rcases List.mem_cons.mp h with rfl | hu
      · simp only [bne_self_eq_false, if_false, Bool.false_eq_true]
        rw [taskSizes_cons]
        have hf := filter_ne_sizes t.id us
        omega
      · have hrec := ih hu
        rw [removeTask] at hrec
        by_cases hw : (u.id != t.id) = true
        · rw [if_pos hw, taskSizes_cons, taskSizes_cons]
          omega
        · rw [if_neg hw, taskSizes_cons]
          have := progSize_pos u.prog
          omega

/-! ### Invariants of the shared drain loop -/

/-- Without clock advancing (tick's mode), the drain loop never moves `now`. -/
theorem execLoopF_now (restrict : Option Nat) (fuel : Nat) (s : SchedState) :
    (execLoopF restrict false fuel s).now = s.now := by
  induction fuel generalizing s with
  | zero => rfl
  | succ fuel ih =>
      rw [execLoopF]
      cases hp : pickTask restrict (drainMicro s) with
      | none => exact drainMicro_now s
      | some t =>
          rw [ih, runProg_now]
          simp only [if_neg (by simp : ¬ (false = true))]
          exact drainMicro_now s

/-- The drain loop never moves the clock backwards, in either mode. -/
theorem execLoopF_now_le (restrict : Option Nat) (advance : Bool) (fuel : Nat) (s : SchedState) :
    s.now ≤ (execLoopF restrict advance fuel s).now := by
  induction fuel generalizing s with
  | zero => exact Nat.le_refl _
  | succ fuel ih =>
      rw [execLoopF]
      cases hp : pickTask restrict (drainMicro s) with
      | none => exact Nat.le_of_eq (drainMicro_now s).symm
      | some t =>
          refine Nat.le_trans ?_ (ih _)
          rw [runProg_now]
          show s.now ≤ (if advance then max (drainMicro s).now t.dueTime else (drainMicro s).now)
          rw [drainMicro_now]
          cases advance
          · exact Nat.le_refl _
          · exact Nat.le_max_left _ _

/-- In tick's mode, every macrotask the drain loop executes was already
recorded, or is due no later than the clock value the loop runs at. -/
theorem execLoopF_execLog (fuel : Nat) (s : SchedState) (x : Nat × Nat)
    (hx : x ∈ (execLoopF none false fuel s).execLog) :
    x ∈ s.execLog ∨ x.2 ≤ s.now := by
  induction fuel generalizing s with
  | zero => exact Or.inl hx
  | succ fuel ih =>
      rw [execLoopF] at hx
      cases hp : pickTask none (drainMicro s) with
      | none =>
          rw [hp] at hx
          simp only [drainMicro_execLog] at hx
          exact Or.inl hx
      | some t =>
          rw [hp] at hx
          rcases ih _ hx with hmem | hle
          · rw [runProg_execLog] at hmem
            simp only [drainMicro_execLog] at hmem
            rcases List.mem_append.mp hmem with hold | hnew
            · exact Or.inl hold
            · right
              have hdue := pickTask_due (drainMicro s) t hp
              rw [drainMicro_now] at hdue
              have : x = (t.id, t.dueTime) := by simpa using hnew
              rw [this]
              exact hdue
          · right
            rw [runProg_now] at hle
            simp only [if_neg (by simp : ¬ (false = true))] at hle
            rw [drainMicro_now] at hle
            exact hle

/-- Every microtask-count the drain loop records at a macrotask start was
already recorded, or is zero: the MicrotaskQueue is always empty when a
macrotask begins executing. -/
theorem execLoopF_microSnap (restrict : Option Nat) (advance : Bool) (fuel : Nat)
    (s : SchedState) (k : Nat)
    (hk : k ∈ (execLoopF restrict advance fuel s).microSnap) :
    k ∈ s.microSnap ∨ k = 0 := by
  induction fuel generalizing s with
  | zero => exact Or.inl hk
  | succ fuel ih =>
      rw [execLoopF] at hk
      cases hp : pickTask restrict (drainMicro s) with
      | none =>
          rw [hp] at hk
          simp only [drainMicro_microSnap] at hk
          exact Or.inl hk
      | some t =>
          rw [hp] at hk
          rcases ih _ hk with hmem | h0
          · rw [runProg_microSnap] at hmem
            simp only [drainMicro_microSnap] at hmem
            rcases List.mem_append.mp hmem with hold | hnew
            · exact Or.inl hold
            · right
              have hlen : (drainMicro s).microQ.length = 0 := by
                rw [drainMicro_microQ]
                rfl
              have : k = (drainMicro s).microQ.length := by simpa using hnew
              rw [this, hlen]
          · exact Or.inr h0

/-- The flush pass loop never moves the clock backwards. -/
theorem flushLoop_now_le (rem : Nat) (s : SchedState) :
    s.now ≤ (outState (flushLoop rem s)).now := by
  induction rem generalizing s with
  | zero =>
      by_cases he : (livePending (execLoop (some s.nextId) true s)).isEmpty = true
      · simp [flushLoop, he, outState]
        exact execLoopF_now_le _ _ _ _
      · simp [flushLoop, he, outState]
        exact execLoopF_now_le _ _ _ _
  | succ rem ih =>
      by_cases he : (livePending (execLoop (some s.nextId) true s)).isEmpty = true
      · simp [flushLoop, he, outState]
        exact execLoopF_now_le _ _ _ _
      · simp [flushLoop, he, outState]
        exact Nat.le_trans (execLoopF_now_le _ _ _ _) (ih _)

/-- Microtask counts recorded across a whole flush are old or zero. -/
theorem flushLoop_microSnap (rem : Nat) (s : SchedState) (k : Nat)
    (hk : k ∈ (outState (flushLoop rem s)).microSnap) :
    k ∈ s.microSnap ∨ k = 0 := by
  induction rem generalizing s with
  | zero =>
      by_cases he : (livePending (execLoop (some s.nextId) true s)).isEmpty = true
      · simp [flushLoop, he, outState] at hk
        exact execLoopF_microSnap _ _ _ _ _ hk
      · simp [flushLoop, he, outState] at hk
        exact execLoopF_microSnap _ _ _ _ _ hk
  | succ rem ih =>
      by_cases he : (livePending (execLoop (some s.nextId) true s)).isEmpty = true
      · simp [flushLoop, he, outState] at hk
        exact execLoopF_microSnap _ _ _ _ _ hk
      · simp [flushLoop, he, outState] at hk
        rcases ih _ hk with hmem | h0
        · exact execLoopF_microSnap _ _ _ _ _ hmem
        · exact Or.inr h0

/-! ### Insertion order at equal delay -/

/-- The MacrotaskQueue produced by a run of equal-delay schedule calls:
consecutive insertion sequence numbers from `i`, one common dueTime, each task
just recording its tag. -/
def emitTasks : Nat → Nat → List Nat → List PendingTask
  | _, _, [] => []
  | i, due, t :: ts => ⟨i, due, false, Prog.emit t⟩ :: emitTasks (i + 1) due ts

theorem emitTasks_due (tags : List Nat) (i due : Nat) (u : PendingTask)
    (hu : u ∈ emitTasks i due tags) : u.dueTime = due := by
  induction tags generalizing i with
  | nil => cases hu
  | cons t ts ih =>
      rw [emitTasks] at hu
      rcases List.mem_cons.mp hu with rfl | hu
      · rfl
      · exact ih _ hu

theorem emitTasks_id_ge (tags : List Nat) (i due : Nat) (u : PendingTask)
    (hu : u ∈ emitTasks i due tags) : i ≤ u.id := by
  induction tags generalizing i with
  | nil => cases hu
  | cons t ts ih =>
      rw [emitTasks] at hu
      rcases List.mem_cons.mp hu with rfl | hu
      · exact Nat.le_refl _
      · exact Nat.le_trans (Nat.le_succ _) (ih _ hu)

theorem emitTasks_sizes (tags : List Nat) (i due : Nat) :
    taskSizes (emitTasks i due tags) = tags.length := by
  induction tags generalizing i with
  | nil => rfl
  | cons t ts ih =>
      rw [emitTasks, taskSizes_cons, ih]
      show 1 + ts.length = ts.length + 1
      omega

/-- All equal-delay tasks are eligible once the clock has reached their
common dueTime, so the candidate filter keeps them all. -/
theorem emitTasks_filter_live (tags : List Nat) (i due now : Nat) (h : due ≤ now) :
    (emitTasks i due tags).filter (taskLive none now) = emitTasks i due tags := by
  induction tags generalizing i with
  | nil => rfl
  | cons t ts ih =>
      rw [emitTasks, List.filter_cons]
      have hl : taskLive none now ⟨i, due, false, Prog.emit t⟩ = true := by
        simp [taskLive, h]
      rw [if_pos hl, ih]

/-- With no strictly earlier dueTime in the rest of the list, the stable
first-wins minimum is the head: FIFO at equal time. -/
theorem pickFrom_head (l : List PendingTask) (b : PendingTask)
    (h : ∀ u ∈ l, b.dueTime ≤ u.dueTime) : pickFrom b l = b := by
  induction l generalizing b with
  | nil => rfl
  | cons u us ih =>
      rw [pickFrom]
      have hbu : ¬ u.dueTime < b.dueTime := Nat.not_lt.mpr (h u (List.mem_cons_self u us))
      rw [if_neg hbu]
      exact ih b (fun v hv => h v (List.mem_cons_of_mem u hv))

/-- Later-inserted equal-delay tasks survive the removal of the head task. -/
theorem emitTasks_remove (tags : List Nat) (i j due : Nat) (h : j < i) :
    removeTask j (emitTasks i due tags) = emitTasks i due tags := by
  induction tags generalizing i with
  | nil => rfl
  | cons t ts ih =>
      rw [emitTasks, removeTask, List.filter_cons]
      have hne : ((⟨i, due, false, Prog.emit t⟩ : PendingTask).id != j) = true := by
        simp only [bne_iff_ne]
        omega
      rw [if_pos hne]
      have := ih (i + 1) (Nat.lt_trans h (Nat.lt_succ_self i))
      rw [removeTask] at this
      rw [this]

/-- One round of the drain loop when the MicrotaskQueue is already empty and
a macrotask is popped; the caller supplies the queue left after removal. -/
theorem execLoopF_step (restrict : Option Nat) (advance : Bool) (fuel : Nat)
    (s : SchedState) (t : PendingTask) (q : List PendingTask)
    (hmq : s.microQ = [])
    (hp : pickTask restrict s = some t)
    (hq : removeTask t.id s.macroQ = q) :
    execLoopF restrict advance (fuel + 1) s =
      execLoopF restrict advance fuel (runProg t.prog
        { s with macroQ := q,
                 now := if advance then max s.now t.dueTime else s.now,
                 execLog := s.execLog ++ [(t.id, t.dueTime)],
                 microSnap := s.microSnap ++ [0] }) := by
  rw [execLoopF, drainMicro_nil s hmq, hp]
  show execLoopF restrict advance fuel (runProg t.prog
      { s with macroQ := removeTask t.id s.macroQ,
               now := if advance then max s.now t.dueTime else s.now,
               execLog := s.execLog ++ [(t.id, t.dueTime)],
               microSnap := s.microSnap ++ [s.microQ.length] }) = _
  rw [hq, hmq, List.length_nil]

/-- The drain loop is the identity once no eligible macrotask is left and the
MicrotaskQueue is empty. -/
theorem execLoopF_done (restrict : Option Nat) (advance : Bool) (fuel : Nat)
    (s : SchedState) (hmq : s.microQ = []) (hp : pickTask restrict s = none) :
    execLoopF restrict advance fuel s = s := by
  cases fuel with
  | zero => rfl
  | succ fuel => rw [execLoopF, drainMicro_nil s hmq, hp]

/-- Core of the equal-delay ordering property: draining a queue of
equal-dueTime tag-recording tasks (with the MicrotaskQueue empty) appends
exactly the tags, in insertion order. -/
theorem execLoopF_emitTasks (tags : List Nat) (fuel i due now n : Nat)
    (lg : List Nat) (el : List (Nat × Nat)) (ms : List Nat)
    (hdue : due ≤ now) (hfuel : tags.length ≤ fuel) :
    (execLoopF none false fuel ⟨now, n, emitTasks i due tags, [], lg, el, ms⟩).log
      = lg ++ tags := by
  induction tags generalizing fuel i lg el ms with
  | nil =>
      have hp : pickTask none ⟨now, n, emitTasks i due [], [], lg, el, ms⟩ = none := rfl
      rw [execLoopF_done none false fuel _ rfl hp]
      simp
  | cons t ts ih =>
      cases fuel with
      | zero =>
          exfalso
          simp at hfuel
      | succ fuel =>
          have hmin : ∀ u ∈ emitTasks (i + 1) due ts,
              (⟨i, due, false, Prog.emit t⟩ : PendingTask).dueTime ≤ u.dueTime := by
            intro u hu
            rw [emitTasks_due ts (i + 1) due u hu]
          have hp : pickTask none ⟨now, n, emitTasks i due (t :: ts), [], lg, el, ms⟩
              = some ⟨i, due, false, Prog.emit t⟩ := by
            unfold pickTask
            show (match (emitTasks i due (t :: ts)).filter (taskLive none now) with
              | [] => none
              | c :: cs => some (pickFrom c cs)) = _
            rw [emitTasks_filter_live _ _ _ _ hdue]
            rw [emitTasks]
            show some (pickFrom ⟨i, due, false, Prog.emit t⟩ (emitTasks (i + 1) due ts))
              = some ⟨i, due, false, Prog.emit t⟩
            rw [pickFrom_head _ _ hmin]
          have hrm : removeTask (⟨i, due, false, Prog.emit t⟩ : PendingTask).id
              (⟨now, n, emitTasks i due (t :: ts), [], lg, el, ms⟩ : SchedState).macroQ
              = emitTasks (i + 1) due ts := by
            show removeTask i (emitTasks i due (t :: ts)) = emitTasks (i + 1) due ts
            rw [emitTasks, removeTask, List.filter_cons]
            have hne : ¬ (((⟨i, due, false, Prog.emit t⟩ : PendingTask).id != i) = true) := by
              simp
            rw [if_neg hne]
            have hrest := emitTasks_remove ts (i + 1) i due (Nat.lt_succ_self i)
            rw [removeTask] at hrest
            rw [hrest]
          rw [execLoopF_step none false fuel _ _ _ rfl hp hrm]
          show (execLoopF none false fuel
              ⟨now, n, emitTasks (i + 1) due ts, [], lg ++ [t], el ++ [(i, due)], ms ++ [0]⟩).log
            = lg ++ (t :: ts)
          rw [ih fuel (i + 1) (lg ++ [t]) (el ++ [(i, due)]) (ms ++ [0]) (by simpa using hfuel)]
          simp

/-- A sequence of `schedule` calls, performed left to right. -/
def scheduleAll (ps : List (Nat × Prog)) (s : SchedState) : SchedState :=
  ps.foldl (fun acc dp => schedule dp.1 dp.2 acc) s

/-- A run of equal-delay tag-recording `schedule` calls builds exactly the
equal-dueTime queue segment, in insertion order. -/
theorem scheduleAll_emits (tags : List Nat) (d : Nat) (s : SchedState) :
    scheduleAll (tags.map (fun t => (d, Prog.emit t))) s =
      { s with macroQ := s.macroQ ++ emitTasks s.nextId (s.now + d) tags,
               nextId := s.nextId + tags.length } := by
  induction tags generalizing s with
  | nil => simp [scheduleAll, emitTasks]
  | cons t ts ih =>
      show scheduleAll (ts.map (fun t => (d, Prog.emit t))) (schedule d (Prog.emit t) s) = _
      rw [ih]
      rw [schedule]
      simp only [emitTasks, List.length_cons]
      rw [List.append_assoc]
      show ({ s with
        macroQ := s.macroQ ++ ([⟨s.nextId, s.now + d, false, Prog.emit t⟩]
          ++ emitTasks (s.nextId + 1) (s.now + d) ts),
        nextId := s.nextId + 1 + ts.length } : SchedState) = _
      simp only [List.singleton_append]
      rw [Nat.add_assoc, Nat.add_comm 1 ts.length]

/-! ### The self-rescheduling task chain behind the flush pass budget -/

/-- Modelled from the spec: a task that, when run, immediately re-schedules
an equivalent task (spec.md section 4.3's self-perpetuating periodic task),
missing from src/.  `reschedProg d n` reschedules itself `n` more times, at
delay `d` each time. -/
def reschedProg (d : Nat) : Nat → Prog
  | 0 => Prog.nop
  | n + 1 => Prog.timer d (reschedProg d n)

/-- The scheduler state mid-chain: one pending copy of the self-rescheduling
task with `n` reschedules left, nothing else queued. -/
def chainState (d n i due now : Nat) (lg : List Nat) (el : List (Nat × Nat))
    (ms : List Nat) : SchedState :=
  ⟨now, i + 1, [⟨i, due, false, reschedProg d n⟩], [], lg, el, ms⟩

theorem pickTask_chain (d n i due now : Nat) (lg : List Nat) (el : List (Nat × Nat))
    (ms : List Nat) :
    pickTask (some (i + 1)) (chainState d n i due now lg el ms)
      = some ⟨i, due, false, reschedProg d n⟩ := by
  unfold pickTask chainState
  show (match ([⟨i, due, false, reschedProg d n⟩] : List PendingTask).filter
      (taskLive (some (i + 1)) now) with
    | [] => none
    | c :: cs => some (pickFrom c cs)) = _
  have hl : taskLive (some (i + 1)) now ⟨i, due, false, reschedProg d n⟩ = true := by
    simp [taskLive]
  rw [List.filter_cons, if_pos hl]
  rfl

theorem removeTask_chain (d n i due now : Nat) (lg : List Nat) (el : List (Nat × Nat))
    (ms : List Nat) :
    removeTask (⟨i, due, false, reschedProg d n⟩ : PendingTask).id
      (chainState d n i due now lg el ms).macroQ = [] := by
  show removeTask i [⟨i, due, false, reschedProg d n⟩] = []
  rw [removeTask, List.filter_cons]
  have hne : ¬ (((⟨i, due, false, reschedProg d n⟩ : PendingTask).id != i) = true) := by
    simp
  rw [if_neg hne]
  rfl

theorem totalPending_chain (d n i due now : Nat) (lg : List Nat) (el : List (Nat × Nat))
    (ms : List Nat) :
    totalPending (chainState d n i due now lg el ms)
      = taskSizes [⟨i, due, false, reschedProg d n⟩] := by
  show taskSizes _ + progSizes [] = _
  rw [progSizes_nil, Nat.add_zero]
  rfl

/-- One flush pass over the end of the chain: the last task runs (advancing
the clock to its dueTime), schedules nothing, and leaves both queues empty. -/
theorem flushPass_chain_zero (d i due now : Nat) (lg : List Nat) (el : List (Nat × Nat))
    (ms : List Nat) :
    execLoop (some (i + 1)) true (chainState d 0 i due now lg el ms)
      = ⟨max now due, i + 1, [], [], lg, el ++ [(i, due)], ms ++ [0]⟩ := by
  rw [execLoop, totalPending_chain]
  show execLoopF (some (i + 1)) true (taskSizes [⟨i, due, false, Prog.nop⟩])
      (chainState d 0 i due now lg el ms) = _
  rw [show taskSizes [⟨i, due, false, Prog.nop⟩] = 0 + 1 from rfl]
  rw [execLoopF_step (some (i + 1)) true 0 _ _ _ rfl (pickTask_chain d 0 i due now lg el ms)
    (removeTask_chain d 0 i due now lg el ms)]
  rfl

/-- One flush pass mid-chain: the task runs, advancing the clock to its
dueTime, and re-schedules its successor - whose insertion number lies outside
the pass snapshot, so the pass ends with the successor still queued. -/
theorem flushPass_chain_succ (d m i due now : Nat) (lg : List Nat) (el : List (Nat × Nat))
    (ms : List Nat) :
    execLoop (some (i + 1)) true (chainState d (m + 1) i due now lg el ms)
      = chainState d m (i + 1) (max now due + d) (max now due) lg
          (el ++ [(i, due)]) (ms ++ [0]) := by
  rw [execLoop, totalPending_chain]
  show execLoopF (some (i + 1)) true
      (taskSizes [⟨i, due, false, Prog.timer d (reschedProg d m)⟩])
      (chainState d (m + 1) i due now lg el ms) = _
  rw [show taskSizes [⟨i, due, false, Prog.timer d (reschedProg d m)⟩]
      = progSize (reschedProg d m) + 1 by
    rw [taskSizes_cons, taskSizes_nil]
    show progSize (Prog.timer d (reschedProg d m)) + 0 = _
    rw [progSize, Nat.add_zero]]
  rw [execLoopF_step (some (i + 1)) true (progSize (reschedProg d m)) _ _ _ rfl
    (pickTask_chain d (m + 1) i due now lg el ms)
    (removeTask_chain d (m + 1) i due now lg el ms)]
  show execLoopF (some (i + 1)) true (progSize (reschedProg d m))
      (chainState d m (i + 1) (max now due + d) (max now due) lg
        (el ++ [(i, due)]) (ms ++ [0])) = _
  have hpnone : pickTask (some (i + 1))
      (chainState d m (i + 1) (max now due + d) (max now due) lg
        (el ++ [(i, due)]) (ms ++ [0])) = none := by
    unfold pickTask chainState
    show (match ([⟨i + 1, max now due + d, false, reschedProg d m⟩] : List PendingTask).filter
        (taskLive (some (i + 1)) (max now due)) with
      | [] => none
      | c :: cs => some (pickFrom c cs)) = _
    have hl : taskLive (some (i + 1)) (max now due)
        ⟨i + 1, max now due + d, false, reschedProg d m⟩ = false := by
      simp [taskLive]
    rw [List.filter_cons, if_neg (by simp [hl])]
    rfl
  rw [execLoopF_done _ _ _ _ rfl hpnone]

theorem chainState_nextId (d n i due now : Nat) (lg : List Nat) (el : List (Nat × Nat))
    (ms : List Nat) : (chainState d n i due now lg el ms).nextId = i + 1 := rfl

/-- A flush started on the chain completes with empty queues exactly when the
remaining pass budget covers the number of reschedules; otherwise it ends in
DrainLimitExceeded. -/
theorem flushLoop_chain (n : Nat) : ∀ (rem d i due now : Nat) (lg : List Nat)
    (el : List (Nat × Nat)) (ms : List Nat),
    (n ≤ rem → ∃ sf, flushLoop rem (chainState d n i due now lg el ms) = FlushOutcome.ok sf
      ∧ sf.macroQ = [] ∧ sf.microQ = []) ∧
    (rem < n → ∃ sf, flushLoop rem (chainState d n i due now lg el ms)
      = FlushOutcome.drainLimitExceeded sf) := by
  induction n with
  | zero =>
      intro rem d i due now lg el ms
      constructor
      · intro _
        refine ⟨⟨max now due, i + 1, [], [], lg, el ++ [(i, due)], ms ++ [0]⟩, ?_, rfl, rfl⟩
        cases rem with
        | zero =>
            rw [flushLoop]
            rw [chainState_nextId, flushPass_chain_zero]
            rfl
        | succ r =>
            rw [flushLoop]
            rw [chainState_nextId, flushPass_chain_zero]
            rfl
      · intro h
        exact absurd h (Nat.not_lt_zero rem)
  | succ m ih =>
      intro rem d i due now lg el ms
      cases rem with
      | zero =>
          constructor
          · intro h
            exact absurd h (by omega)
          · intro _
            refine ⟨chainState d m (i + 1) (max now due + d) (max now due) lg
              (el ++ [(i, due)]) (ms ++ [0]), ?_⟩
            rw [flushLoop]
            rw [chainState_nextId, flushPass_chain_succ]
            rfl
      | succ r =>
          have hrec := ih r d (i + 1) (max now due + d) (max now due) lg
            (el ++ [(i, due)]) (ms ++ [0])
          constructor
          · intro h
            rcases hrec.1 (by omega) with ⟨sf, hsf, hmac, hmic⟩
            refine ⟨sf, ?_, hmac, hmic⟩
            rw [flushLoop]
            rw [chainState_nextId, flushPass_chain_succ]
            rw [show (livePending (chainState d m (i + 1) (max now due + d) (max now due) lg
              (el ++ [(i, due)]) (ms ++ [0]))).isEmpty = false from rfl]
            simpa using hsf
          · intro h
            rcases hrec.2 (by omega) with ⟨sf, hsf⟩
            refine ⟨sf, ?_⟩
            rw [flushLoop]
            rw [chainState_nextId, flushPass_chain_succ]
            rw [show (livePending (chainState d m (i + 1) (max now due + d) (max now due) lg
              (el ++ [(i, due)]) (ms ++ [0]))).isEmpty = false from rfl]
            simpa using hsf

/-! ### InterceptionScope (spec.md section 4.4) -/

/-- Modelled from the spec: the InterceptionScope state, missing from src/ -
whether a scope is active, and whether the ambient schedule primitives are
currently the real ones (they are swapped out while a scope is active). -/
structure InterceptionScope where
  active : Bool
  ambientIntact : Bool
deriving DecidableEq, Repr

/-- The scope lifecycle errors of spec.md section 7. -/
inductive ScopeErr where
  | scopeAlreadyActive : ScopeErr
  | scopeNotActive : ScopeErr
deriving DecidableEq, Repr

/-- Modelled from the spec: `enterScope()` (spec.md sections 4.4/6), missing
from src/ - fails with ScopeAlreadyActive when a scope is already active,
leaving the state untouched; otherwise activates the scope, redirecting the
ambient primitives. -/
def enterScope (c : InterceptionScope) : Except ScopeErr Unit × InterceptionScope :=
  if c.active then (Except.error ScopeErr.scopeAlreadyActive, c)
  else (Except.ok (), { active := true, ambientIntact := false })

/-- Modelled from the spec: `exitScope()` (spec.md sections 4.4/6), missing
from src/ - deactivates the scope and restores the ambient primitives
unconditionally. -/
def exitScope (_ : InterceptionScope) : InterceptionScope :=
  { active := false, ambientIntact := true }

/-- Modelled from the spec: running a test body inside a scope (spec.md
section 4.4's scoped acquisition with guaranteed release), missing from src/.
The body receives the entered scope and returns its outcome - possibly an
error, standing for a thrown test failure - together with its final scope
state; `exitScope` runs on every exit path. -/
def withScope (body : InterceptionScope → Except Unit Unit × InterceptionScope)
    (c : InterceptionScope) : Except ScopeErr (Except Unit Unit) × InterceptionScope :=
  match enterScope c with
  | (Except.error e, c1) => (Except.error e, c1)
  | (Except.ok _, c1) =>
      let r := body c1
      (Except.ok r.1, exitScope r.2)

/-! ### StabilityWaiter (spec.md section 4.5) -/

/-- Modelled from the spec: the StabilityWaiter, missing from src/ - the
shared PendingWorkCounter, whether a `whenStable()` call is suspended, and how
many times a suspended call has resolved. -/
structure StabilityWaiter where
  counter : Nat
  waiting : Bool
  resolved : Nat
deriving DecidableEq, Repr

/-- Modelled from the spec: `incrementPendingWork()` (spec.md section 6),
missing from src/. -/
def incrementPendingWork (w : StabilityWaiter) : StabilityWaiter :=
  { w with counter := w.counter + 1 }

/-- Modelled from the spec: `decrementPendingWork()` (spec.md sections 5/6),
missing from src/ - when the decrement brings the shared counter to zero, a
suspended `whenStable()` call resolves, exactly once. -/
def decrementPendingWork (w : StabilityWaiter) : StabilityWaiter :=
  let c := w.counter - 1
  if w.waiting && c = 0 then ⟨c, false, w.resolved + 1⟩
  else { w with counter := c }

/-- Modelled from the spec: `whenStable()` (spec.md section 4.5), missing
from src/ - resolves immediately when the counter is already zero, otherwise
suspends until the counter reaches zero. -/
def whenStable (w : StabilityWaiter) : StabilityWaiter :=
  if w.counter = 0 then { w with resolved := w.resolved + 1 }
  else { w with waiting := true }

/-- The events a collaborator can direct at the StabilityWaiter. -/
inductive WaiterEvent where
  | inc : WaiterEvent
  | dec : WaiterEvent
  | stable : WaiterEvent
deriving DecidableEq, Repr

def waiterStep (w : StabilityWaiter) : WaiterEvent → StabilityWaiter
  | WaiterEvent.inc => incrementPendingWork w
  | WaiterEvent.dec => decrementPendingWork w
  | WaiterEvent.stable => whenStable w

def runWaiter (w : StabilityWaiter) (evs : List WaiterEvent) : StabilityWaiter :=
  evs.foldl waiterStep w

/-! ### The application-level test model (app.component.spec.ts) -/

/-- The quick filter text values exercised by the test suite. -/
inductive FilterText where
  | noFilter : FilterText
  | germany : FilterText
deriving DecidableEq, Repr

/-- The grid's displayed row count for a filter value: 1000 rows unfiltered,
68 German athletes (app.component.spec.ts expectations). -/
def rowsFor : FilterText → Nat
  | FilterText.noFilter => 1000
  | FilterText.germany => 68

/-- Modelled from the spec: the state observed by validateState in
app.component.spec.ts - the grid's internal model (gridRows), the component
property (displayedRows), the rendered template output (templateRows) -
together with the filter text box, the grid's bound filter input, and the
number of queued asynchronous (modelUpdated) callbacks.  The grid and the
change-detection machinery are external collaborators, missing from src/. -/
structure AppModel where
  gridCreated : Bool
  gridRows : Nat
  displayedRows : Nat
  templateRows : Nat
  pending : Nat
  inputText : FilterText
  boundFilter : FilterText
deriving DecidableEq, Repr

/-- The fixture as created in beforeEach: no grid yet, nothing rendered. -/
def initialApp : AppModel := ⟨false, 0, 0, 0, 0, FilterText.noFilter, FilterText.noFilter⟩

/-- Modelled from the spec: fixture.detectChanges() as the test narrates it -
the first call creates the grid and binds its inputs (scheduling the async
modelUpdated callback); later calls push a changed filter text into the grid
input (the grid filters synchronously and schedules the async callback), and
re-render the template from the current component property.  The callback
itself is never executed here. -/
def detectChanges (m : AppModel) : AppModel :=
  if m.gridCreated then
    let m1 := if m.inputText = m.boundFilter then m
      else { m with boundFilter := m.inputText,
                    gridRows := rowsFor m.inputText,
                    pending := m.pending + 1 }
    { m1 with templateRows := m1.displayedRows }
  else
    { m with gridCreated := true,
             boundFilter := m.inputText,
             gridRows := rowsFor m.inputText,
             pending := m.pending + 1,
             templateRows := m.displayedRows }

/-- Modelled from the spec: flush() as observed by the test - every queued
(modelUpdated) callback runs, setting the component property displayedRows
from the grid's current row count; the rendered template is not touched. -/
def flushApp (m : AppModel) : AppModel :=
  if m.pending = 0 then m
  else { m with displayedRows := m.gridRows, pending := 0 }

/-- Typing into the quick filter box: only the input element changes until
change detection runs. -/
def setFilterInput (f : FilterText) (m : AppModel) : AppModel :=
  { m with inputText := f }

/-! ### StabilityWaiter lemmas -/

/-- A waiter step either leaves the resolution count alone, or resolves the
suspended call exactly once - and then only at a step where the shared
counter is zero. -/
theorem waiterStep_resolved (w : StabilityWaiter) (e : WaiterEvent) :
    (waiterStep w e).resolved = w.resolved ∨
    ((waiterStep w e).resolved = w.resolved + 1 ∧ (waiterStep w e).counter = 0) := by
  cases e with
  | inc => exact Or.inl rfl
  | dec =>
      simp only [waiterStep, decrementPendingWork]
      by_cases h : (w.waiting && decide (w.counter - 1 = 0)) = true
      · rw [if_pos h]
        right
        refine ⟨rfl, ?_⟩
        have := (Bool.and_eq_true _ _).mp h
        simpa using this.2
      · rw [if_neg h]
        exact Or.inl rfl
  | stable =>
      simp only [waiterStep, whenStable]
      by_cases h : w.counter = 0
      · rw [if_pos h]
        exact Or.inr ⟨rfl, h⟩
      · rw [if_neg h]
        exact Or.inl rfl

/-- If the counter stays away from zero along the whole run, no suspended
call ever resolves. -/
theorem runWaiter_never_zero (evs : List WaiterEvent) : ∀ (w : StabilityWaiter),
    (∀ k, k ≤ evs.length → (runWaiter w (evs.take k)).counter ≠ 0) →
    (runWaiter w evs).resolved = w.resolved := by
  induction evs with
  | nil => intro w _; rfl
  | cons e es ih =>
      intro w h
      have h1 : (waiterStep w e).counter ≠ 0 := by
        have h' := h 1 (by simp)
        simpa [runWaiter] using h'
      have hstep : (waiterStep w e).resolved = w.resolved := by
        rcases waiterStep_resolved w e with h' | ⟨_, hc⟩
        · exact h'
        · exact absurd hc h1
      have hrest := ih (waiterStep w e) (fun k hk => by
        have h' := h (k + 1) (by simpa using hk)
        simpa [runWaiter] using h')
      calc (runWaiter w (e :: es)).resolved
          = (runWaiter (waiterStep w e) es).resolved := rfl
        _ = (waiterStep w e).resolved := hrest
        _ = w.resolved := hstep

/-! ### The claims -/

/-- C1: for every scheduler whose queue contains a task that reschedules
itself N times, `flush` with pass budget maxPasses (default 20) fails with
DrainLimitExceeded when N > maxPasses, and when N ≤ maxPasses it completes
normally with both task queues empty afterwards. -/
theorem claim_C1 (N maxPasses d now0 : Nat) :
    (N ≤ maxPasses →
      ∃ sf, flush maxPasses (schedule d (reschedProg d N) (initState now0))
        = FlushOutcome.ok sf ∧ sf.macroQ = [] ∧ sf.microQ = []) ∧
    (maxPasses < N →
      ∃ sf, flush maxPasses (schedule d (reschedProg d N) (initState now0))
        = FlushOutcome.drainLimitExceeded sf) ∧
    (N ≤ 20 →
      ∃ sf, flushDefault (schedule d (reschedProg d N) (initState now0))
        = FlushOutcome.ok sf ∧ sf.macroQ = [] ∧ sf.microQ = []) ∧
    (20 < N →
      ∃ sf, flushDefault (schedule d (reschedProg d N) (initState now0))
        = FlushOutcome.drainLimitExceeded sf) := by
  have hc := flushLoop_chain N maxPasses d 0 (now0 + d) now0 [] [] []
  have hc20 := flushLoop_chain N 20 d 0 (now0 + d) now0 [] [] []
  exact ⟨fun h => hc.1 h, fun h => hc.2 h, fun h => hc20.1 h, fun h => hc20.2 h⟩

theorem claim_C1_witness :
    (∃ sf, flush 2 (schedule 5 (reschedProg 5 1) (initState 0))
      = FlushOutcome.ok sf ∧ sf.macroQ = [] ∧ sf.microQ = []) ∧
    (∃ sf, flushDefault (schedule 1 (reschedProg 1 21) (initState 0))
      = FlushOutcome.drainLimitExceeded sf) :=
  ⟨(claim_C1 1 2 5 0).1 (by decide), (claim_C1 21 0 1 0).2.2.2 (by decide)⟩

/-- C2: for every non-negative amount n, `tick(n)` never executes a task
whose dueTime exceeds now_before + n (every newly recorded execution has
dueTime ≤ now_before + n), and afterwards the clock equals exactly
now_before + n, regardless of how many tasks were executed. -/
theorem claim_C2 (n : Nat) (s : SchedState) :
    (tick n s).now = s.now + n ∧
    (∀ x ∈ (tick n s).execLog, x ∈ s.execLog ∨ x.2 ≤ s.now + n) := by
  constructor
  · exact execLoopF_now none _ _
  · intro x hx
    exact execLoopF_execLog _ _ x hx

theorem claim_C2_witness :
    (tick 5 (schedule 3 Prog.nop (initState 0))).now = 0 + 5 ∧
    ((0, 3) ∈ (schedule 3 Prog.nop (initState 0)).execLog ∨ 3 ≤ 0 + 5) :=
  ⟨(claim_C2 5 (schedule 3 Prog.nop (initState 0))).1,
   (claim_C2 5 (schedule 3 Prog.nop (initState 0))).2 (0, 3) (by decide)⟩

/-- C3: a macrotask never begins executing while a microtask enqueued up to
the current checkpoint is pending: whichever drain operation runs (tick,
flush, flushMicrotasks), every microtask-queue length recorded at a
macrotask's start is zero (unless it was already recorded before the call). -/
theorem claim_C3 (s : SchedState) :
    (∀ n k, k ∈ (tick n s).microSnap → k ∈ s.microSnap ∨ k = 0) ∧
    (∀ maxPasses k, k ∈ (outState (flush maxPasses s)).microSnap → k ∈ s.microSnap ∨ k = 0) ∧
    (∀ k, k ∈ (flushMicrotasks s).microSnap → k ∈ s.microSnap ∨ k = 0) := by
  refine ⟨?_, ?_, ?_⟩
  · intro n k hk
    exact execLoopF_microSnap none false _ { s with now := s.now + n } k hk
  · intro maxPasses k hk
    exact flushLoop_microSnap maxPasses s k hk
  · intro k hk
    rw [show (flushMicrotasks s).microSnap = s.microSnap from drainMicro_microSnap s] at hk
    exact Or.inl hk

theorem claim_C3_witness :
    0 ∈ (scheduleImmediate (Prog.emit 9) (schedule 0 Prog.nop (initState 0))).microSnap ∨
    (0 : Nat) = 0 :=
  (claim_C3 (scheduleImmediate (Prog.emit 9) (schedule 0 Prog.nop (initState 0)))).1
    0 0 (by decide)

/-- C4: for every sequence of equal-delay schedule calls the callbacks
execute in insertion order, and the concrete scenario - delays 10, 0, 10 then
tick(10) - executes the delay-0 task first, then the two delay-10 tasks in
insertion order. -/
theorem claim_C4 :
    (∀ (tags : List Nat) (d now0 : Nat),
      (tick d (scheduleAll (tags.map (fun t => (d, Prog.emit t))) (initState now0))).log
        = tags) ∧
    (tick 10 (scheduleAll [(10, Prog.emit 1), (0, Prog.emit 2), (10, Prog.emit 3)]
        (initState 0))).log = [2, 1, 3] := by
  constructor
  · intro tags d now0
    have hstate : scheduleAll (tags.map (fun t => (d, Prog.emit t))) (initState now0)
        = ⟨now0, tags.length, emitTasks 0 (now0 + d) tags, [], [], [], []⟩ := by
      rw [scheduleAll_emits]
      simp [initState]
    rw [hstate]
    have hfuel : tags.length ≤
        totalPending ⟨now0 + d, tags.length, emitTasks 0 (now0 + d) tags, [], [], [], []⟩ := by
      show tags.length ≤ taskSizes (emitTasks 0 (now0 + d) tags)
      rw [emitTasks_sizes]
    show (execLoopF none false
        (totalPending ⟨now0 + d, tags.length, emitTasks 0 (now0 + d) tags, [], [], [], []⟩)
        ⟨now0 + d, tags.length, emitTasks 0 (now0 + d) tags, [], [], [], []⟩).log = tags
    exact execLoopF_emitTasks tags _ 0 (now0 + d) (now0 + d) tags.length [] [] []
      (Nat.le_refl _) hfuel
  · decide

/-- C5: `flushMicrotasks()` drains to the fixed point of an empty queue -
every microtask enqueued during the execution of another microtask is itself
popped and executed before it returns, as the nested-enqueue example shows. -/
theorem claim_C5 (s : SchedState) :
    (flushMicrotasks s).microQ = [] ∧
    (flushMicrotasks ⟨0, 0, [], [Prog.micro (Prog.micro (Prog.emit 7))], [], [], []⟩).log
      = [7] ∧
    (flushMicrotasks ⟨0, 0, [], [Prog.micro (Prog.micro (Prog.emit 7))], [], [], []⟩).microQ
      = [] :=
  ⟨drainMicro_microQ s, by decide, by decide⟩

/-- C6: `enter()` while a scope is active fails with ScopeAlreadyActive
without changing scope state; after `exit()` a subsequent `enter()` succeeds;
and `exit()` restores the ambient primitives on every exit path, including
when the test body threw an error. -/
theorem claim_C6 :
    (∀ c : InterceptionScope, c.active = true →
      enterScope c = (Except.error ScopeErr.scopeAlreadyActive, c)) ∧
    (∀ c : InterceptionScope, c.active = false →
      (enterScope ((enterScope c).2)).1 = Except.error ScopeErr.scopeAlreadyActive ∧
      (enterScope ((enterScope c).2)).2 = (enterScope c).2) ∧
    (∀ c : InterceptionScope, (enterScope (exitScope c)).1 = Except.ok ()) ∧
    (∀ (body : InterceptionScope → Except Unit Unit × InterceptionScope)
        (c : InterceptionScope), c.active = false →
      (withScope body c).2.active = false ∧ (withScope body c).2.ambientIntact = true) := by
  refine ⟨?_, ?_, ?_, ?_⟩
  · intro c h
    simp [enterScope, h]
  · intro c h
    constructor
    · simp [enterScope, h]
    · simp [enterScope, h]
  · intro c
    simp [enterScope, exitScope]
  · intro body c h
    constructor
    · simp [withScope, enterScope, h, exitScope]
    · simp [withScope, enterScope, h, exitScope]

theorem claim_C6_witness :
    enterScope ⟨true, false⟩ = (Except.error ScopeErr.scopeAlreadyActive, ⟨true, false⟩) ∧
    ((enterScope ((enterScope ⟨false, true⟩).2)).1
        = Except.error ScopeErr.scopeAlreadyActive ∧
      (enterScope ((enterScope ⟨false, true⟩).2)).2 = (enterScope ⟨false, true⟩).2) ∧
    (enterScope (exitScope ⟨true, false⟩)).1 = Except.ok () ∧
    ((withScope (fun c1 => (Except.error (), c1)) ⟨false, true⟩).2.active = false ∧
      (withScope (fun c1 => (Except.error (), c1)) ⟨false, true⟩).2.ambientIntact = true) :=
  ⟨claim_C6.1 ⟨true, false⟩ rfl,
   claim_C6.2.1 ⟨false, true⟩ rfl,
   claim_C6.2.2.1 ⟨true, false⟩,
   claim_C6.2.2.2 (fun c1 => (Except.error (), c1)) ⟨false, true⟩ rfl⟩

/-- C7: a suspended `whenStable()` call resolves exactly once, and only at
the step where the PendingWorkCounter reaches zero, never before the
decrement that brings it to zero; if the counter never reaches zero the
suspension never resolves. -/
theorem claim_C7 :
    (∀ (w : StabilityWaiter) (e : WaiterEvent),
      (waiterStep w e).resolved = w.resolved ∨
      ((waiterStep w e).resolved = w.resolved + 1 ∧ (waiterStep w e).counter = 0)) ∧
    runWaiter ⟨0, false, 0⟩ [WaiterEvent.inc, WaiterEvent.stable] = ⟨1, true, 0⟩ ∧
    runWaiter ⟨0, false, 0⟩ [WaiterEvent.inc, WaiterEvent.stable, WaiterEvent.dec]
      = ⟨0, false, 1⟩ ∧
    (∀ (evs : List WaiterEvent) (w : StabilityWaiter),
      (∀ k, k ≤ evs.length → (runWaiter w (evs.take k)).counter ≠ 0) →
      (runWaiter w evs).resolved = w.resolved) :=
  ⟨waiterStep_resolved, by decide, by decide, runWaiter_never_zero⟩

theorem claim_C7_witness :
    (runWaiter ⟨2, false, 0⟩ [WaiterEvent.inc, WaiterEvent.dec]).resolved = 0 :=
  claim_C7.2.2.2 [WaiterEvent.inc, WaiterEvent.dec] ⟨2, false, 0⟩ (by decide)

/-- C8: the clock is monotonically non-decreasing across every scheduler
operation - schedule, cancel, scheduleImmediate, tick, flushMicrotasks and
flush (in either outcome) never move `now` backwards. -/
theorem claim_C8 (s : SchedState) :
    (∀ d p, (schedule d p s).now = s.now) ∧
    (∀ i, (cancel i s).now = s.now) ∧
    (∀ p, (scheduleImmediate p s).now = s.now) ∧
    (∀ n, s.now ≤ (tick n s).now) ∧
    (flushMicrotasks s).now = s.now ∧
    (∀ maxPasses, s.now ≤ (outState (flush maxPasses s)).now) := by
  refine ⟨fun d p => rfl, fun i => rfl, fun p => rfl, ?_, drainMicro_now s, ?_⟩
  · intro n
    have h : (tick n s).now = s.now + n := execLoopF_now none _ _
    omega
  · intro maxPasses
    exact flushLoop_now_le maxPasses s

/-- C9: executing queued tasks via flush updates component-level state (the
displayedRows property) but leaves the rendered template output unchanged;
only a subsequent change-detection step updates the template, as both test
checkpoints show. -/
theorem claim_C9 :
    (∀ m : AppModel, (flushApp m).templateRows = m.templateRows) ∧
    (∀ m : AppModel, (flushApp { m with pending := m.pending + 1 }).displayedRows
      = m.gridRows) ∧
    ((flushApp (detectChanges initialApp)).displayedRows = 1000 ∧
      (flushApp (detectChanges initialApp)).templateRows = 0 ∧
      (detectChanges (flushApp (detectChanges initialApp))).templateRows = 1000) ∧
    ((flushApp (detectChanges (setFilterInput FilterText.germany
        (detectChanges (flushApp (detectChanges initialApp)))))).displayedRows = 68 ∧
      (flushApp (detectChanges (setFilterInput FilterText.germany
        (detectChanges (flushApp (detectChanges initialApp)))))).templateRows = 1000 ∧
      (detectChanges (flushApp (detectChanges (setFilterInput FilterText.germany
        (detectChanges (flushApp (detectChanges initialApp))))))).templateRows = 68) := by
  refine ⟨?_, ?_, by decide, by decide⟩
  · intro m
    rw [flushApp]
    by_cases h : m.pending = 0
    · rw [if_pos h]
    · rw [if_neg h]
  · intro m
    simp [flushApp]

/-- C10: scheduling asynchronous work never executes its callback
synchronously - change detection (grid creation or a filter-input push) and
typing into the filter leave displayedRows untouched while enqueuing the
callback; the update appears only after an explicit drain. -/
theorem claim_C10 :
    (∀ m : AppModel, (detectChanges m).displayedRows = m.displayedRows) ∧
    (∀ (f : FilterText) (m : AppModel), (setFilterInput f m).displayedRows
      = m.displayedRows) ∧
    ((detectChanges initialApp).displayedRows = 0 ∧
      (detectChanges initialApp).pending = 1) ∧
    ((detectChanges (setFilterInput FilterText.germany
        (detectChanges (flushApp (detectChanges initialApp))))).displayedRows = 1000 ∧
      (detectChanges (setFilterInput FilterText.germany
        (detectChanges (flushApp (detectChanges initialApp))))).pending = 1 ∧
      (flushApp (detectChanges (setFilterInput FilterText.germany
        (detectChanges (flushApp (detectChanges initialApp)))))).displayedRows = 68) := by
  refine ⟨?_, fun f m => rfl, by decide, by decide⟩
  intro m
  rw [detectChanges]
  by_cases hg : m.gridCreated = true
  · rw [if_pos hg]
    by_cases hf : m.inputText = m.boundFilter
    · rw [if_pos hf]
    · rw [if_neg hf]
  · rw [if_neg hg]

end FakeAsync
